import Mathlib

/-!
Verification of the httpsnippet request-canonicalization pipeline and
target/client registry against its specification.

The development shallowly embeds the TypeScript sources:
  * the header helpers `getHeader`, `getHeaderName`, `hasHeader`;
  * `HTTPSnippet.prepare` (request canonicalization);
  * `HTTPSnippet.convert` / `_matchTarget` (dispatch);
  * `addTarget` (registry extension).
JavaScript string-keyed objects are modelled as insertion-ordered
association lists (`jsSet` overwrites in place, fresh keys append at the
end, matching property-enumeration order for non-index keys).  External
Node built-ins used by the code (`querystring`, legacy `url`,
`JSON.parse`, `encodeURIComponent`, `String.prototype.toLowerCase`) are
modelled explicitly below; each model's doc comment states its scope.
-/

namespace HttpSnippet

/-- JavaScript object assignment `o[k] = v`: overwrites the entry in place
when `k` is already a key, otherwise appends `(k, v)` at the end.  This is
the enumeration-order semantics of JS objects for non-index string keys
(objects have unique keys, so replacing the first occurrence is exact). -/
def jsSet {α : Type} : List (String × α) → String → α → List (String × α)
  | [], k, v => [(k, v)]
  | p :: rest, k, v =>
    if p.1 == k then (k, v) :: rest else p :: jsSet rest k v

/-- JavaScript property read `o[k]`, `none` when the key is absent. -/
def jsGet? {α : Type} (o : List (String × α)) (k : String) : Option α :=
  (o.find? (fun p => p.1 == k)).map (fun p => p.2)

/-- `Object.keys o` in enumeration order. -/
def jsKeys {α : Type} (o : List (String × α)) : List String :=
  o.map (fun p => p.1)

/-- `Object.assign target src`: every entry of `src`, in enumeration
order, is assigned into `target`, overwriting on key collision. -/
def jsAssign {α : Type} (target src : List (String × α)) :
    List (String × α) :=
  src.foldl (fun o p => jsSet o p.1 p.2) target

/-- Model of `String.prototype.toLowerCase` (ASCII scope, which is all the
code exercises: header names and HTTP-version strings). -/
def jsToLower (s : String) : String :=
  ⟨s.data.map Char.toLower⟩

/-- Model of the regular-expression test `httpVersion.match(/^HTTP\x2f2/)`
being non-null: the version string starts with `HTTP/2`. -/
def jsStartsWith (s pre : String) : Bool :=
  pre.data.isPrefixOf s.data

/-- `Array.prototype.join sep`. -/
def jsJoin (sep : String) : List String → String
  | [] => ""
  | [x] => x
  | x :: y :: rest => x ++ sep ++ jsJoin sep (y :: rest)

theorem jsGet?_jsSet_self {α : Type} (o : List (String × α)) (k : String)
    (v : α) : jsGet? (jsSet o k v) k = some v := by
  induction o with
  | nil => simp [jsSet, jsGet?]
  | cons p rest ih =>
    by_cases hp : p.1 = k
    · simp [jsSet, jsGet?, hp]
    · simp [jsSet, jsGet?, hp, List.find?] at ih ⊢
      exact ih

theorem jsGet?_jsSet_other {α : Type} (o : List (String × α))
    (k k' : String) (v : α) (h : k' ≠ k) :
    jsGet? (jsSet o k v) k' = jsGet? o k' := by
  have hk' : (k == k') = false := by simpa using fun hh => h hh.symm
  induction o with
  | nil => simp [jsSet, jsGet?, List.find?, hk']
  | cons p rest ih =>
    by_cases hp : p.1 = k
    · have hp' : (p.1 == k') = false := by
        simpa [hp] using fun hh => h hh.symm
      have hp2 : (p.1 == k) = true := by simpa using hp
      simp [jsSet, jsGet?, hp2, hk', hp', List.find?]
    · have hp2 : (p.1 == k) = false := by simpa using hp
      by_cases hq : p.1 = k'
      · have hq' : (p.1 == k') = true := by simpa using hq
        simp [jsSet, jsGet?, hp2, hq', List.find?]
      · have hq' : (p.1 == k') = false := by simpa using hq
        simp [jsSet, jsGet?, hp2, hq', List.find?] at ih ⊢
        exact ih

theorem jsGet?_foldl_jsSet {α : Type} (f : String × α → String)
    (l : List (String × α)) (init : List (String × α)) (k : String) :
    jsGet? (l.foldl (fun o p => jsSet o (f p) p.2) init) k =
      match (l.filter (fun p => f p == k)).getLast? with
      | some p => some p.2
      | none => jsGet? init k := by
  induction l generalizing init with
  | nil => simp
  | cons p rest ih =>
    rw [List.foldl_cons, ih]
    by_cases hp : f p = k
    · have hp' : (f p == k) = true := by simpa using hp
      rcases hf : rest.filter (fun q => f q == k) with _ | ⟨q, qs⟩
      · rw [hp] at hp' ⊢
        simp [List.filter_cons, hp, hp', hf, jsGet?_jsSet_self]
      · rcases hg : (q :: qs).getLast? with _ | r
        · simp at hg
        · simp [List.filter_cons, hp', hf, hg]
    · have hp' : (f p == k) = false := by simpa using hp
      rcases hf : rest.filter (fun q => f q == k) with _ | ⟨q, qs⟩
      · simp [List.filter_cons, hp', hf,
          jsGet?_jsSet_other init (f p) k p.2 (fun h => hp h.symm)]
      · rcases hg : (q :: qs).getLast? with _ | r
        · simp at hg
        · simp [List.filter_cons, hp', hf, hg]

/-- Folding `jsSet` from the empty object: the value for `k` is that of
the last entry of the sequence whose (transformed) key equals `k`. -/
theorem jsGet?_foldl_jsSet_nil {α : Type} (f : String × α → String)
    (l : List (String × α)) (k : String) :
    jsGet? (l.foldl (fun o p => jsSet o (f p) p.2) []) k =
      ((l.filter (fun p => f p == k)).getLast?).map (fun p => p.2) := by
  rw [jsGet?_foldl_jsSet]
  rcases hf : (l.filter (fun p => f p == k)).getLast? with _ | q <;>
    simp [jsGet?]

/-- Folding `jsSet` over the *reversed* sequence from the empty object:
the value for `k` is that of the first entry whose key equals `k`. -/
theorem jsGet?_foldl_jsSet_reverse {α : Type} (l : List (String × α))
    (k : String) :
    jsGet? (l.reverse.foldl (fun o p => jsSet o p.1 p.2) []) k =
      (l.find? (fun p => p.1 == k)).map (fun p => p.2) := by
  rw [jsGet?_foldl_jsSet_nil (fun p => p.1)]
  have h1 : l.reverse.filter (fun p => p.1 == k) =
      (l.filter (fun p => p.1 == k)).reverse := List.filter_reverse ..
  rw [h1, List.getLast?_reverse]
  congr 1
  exact List.filter_head? ..

/-- `jsGet?_foldl_jsSet_nil` for an arbitrary key/value extraction. -/
theorem jsGet?_foldl_jsSet_nil2 {β α : Type} (key : β → String)
    (val : β → α) (l : List β) (k : String) :
    jsGet? (l.foldl (fun o b => jsSet o (key b) (val b)) []) k =
      ((l.filter (fun b => key b == k)).getLast?).map (fun b => val b) := by
  have h := jsGet?_foldl_jsSet_nil (fun p => p.1)
    (l.map (fun b => (key b, val b))) k
  rw [List.foldl_map] at h
  rw [h, List.filter_map]
  rw [List.getLast?_map, Option.map_map]
  rfl

/-! ### Models of string built-ins: percent-encoding and query strings -/

/-- Uppercase hexadecimal digit for `n < 16`. -/
def hexDigitUpper (n : Nat) : Char :=
  if n < 10 then Char.ofNat (48 + n) else Char.ofNat (55 + n)

/-- Characters `encodeURIComponent` (and Node's `querystring.escape`)
leave unencoded: alphanumerics and `- _ . ! ~ * ( )` and the apostrophe
(code point 39). -/
def isUriUnreserved (c : Char) : Bool :=
  c.isAlpha || c.isDigit || c == '-' || c == '_' || c == '.' || c == '!' ||
  c == '~' || c == '*' || c == Char.ofNat 39 || c == '(' || c == ')'

/-- UTF-8 encoding of one code point, as byte values. -/
def utf8Bytes (c : Char) : List Nat :=
  let n := c.toNat
  if n < 128 then [n]
  else if n < 2048 then [192 + n / 64, 128 + n % 64]
  else if n < 65536 then
    [224 + n / 4096, 128 + (n / 64) % 64, 128 + n % 64]
  else
    [240 + n / 262144, 128 + (n / 4096) % 64, 128 + (n / 64) % 64,
     128 + n % 64]

/-- `%XY` encoding of a single byte. -/
def percentByte (b : Nat) : List Char :=
  ['%', hexDigitUpper (b / 16), hexDigitUpper (b % 16)]

/-- Model of `encodeURIComponent` (also Node's `querystring.escape`,
which uses the same unreserved set): unreserved characters pass through,
every other character is replaced by the percent-encoding of its UTF-8
bytes. -/
def encodeURIComponent (s : String) : String :=
  ⟨s.data.flatMap (fun c =>
    if isUriUnreserved c then [c]
    else (utf8Bytes c).flatMap percentByte)⟩

/-- Numeric value of a hexadecimal digit, `none` otherwise. -/
def hexVal? (c : Char) : Option Nat :=
  if 48 ≤ c.toNat ∧ c.toNat ≤ 57 then some (c.toNat - 48)
  else if 65 ≤ c.toNat ∧ c.toNat ≤ 70 then some (c.toNat - 55)
  else if 97 ≤ c.toNat ∧ c.toNat ≤ 102 then some (c.toNat - 87)
  else none

/-- Model of Node's `querystring` unescaping of one component: `+`
becomes a space and `%XY` becomes the character with code `XY`.  Byte
model: each escape yields one code unit, which is exact for the ASCII
range the code exercises (multi-byte UTF-8 sequences are not
recombined). -/
def qsUnescapeList : List Char → List Char
  | [] => []
  | '%' :: h1 :: h2 :: rest =>
    match hexVal? h1, hexVal? h2 with
    | some v1, some v2 => Char.ofNat (16 * v1 + v2) :: qsUnescapeList rest
    | _, _ => '%' :: qsUnescapeList (h1 :: h2 :: rest)
  | '+' :: rest => ' ' :: qsUnescapeList rest
  | c :: rest => c :: qsUnescapeList rest

/-- Split a character list at every occurrence of `sep`. -/
def splitList (sep : Char) : List Char → List (List Char)
  | [] => [[]]
  | c :: rest =>
    match splitList sep rest with
    | [] => if c == sep then [[], []] else [[c]]
    | g :: gs => if c == sep then [] :: g :: gs else (c :: g) :: gs

/-- Split a character list at the first occurrence of `sep`; `none` when
`sep` does not occur. -/
def splitFirst (sep : Char) : List Char → Option (List Char × List Char)
  | [] => none
  | c :: rest =>
    if c == sep then some ([], rest)
    else (splitFirst sep rest).map (fun p => (c :: p.1, p.2))

/-- Model of Node's `querystring.parse`: split on `&` (empty segments are
skipped), split each segment at its first `=` (a segment without `=` maps
to the empty value), unescape both sides.  Values are modelled as plain
strings — the canonical `Request` types the query object as
`Record<string, string>` — so a duplicate key inside the URL query keeps
the later value (Node would aggregate duplicates into an array; no claim
exercises that corner). -/
def qsParse (s : String) : List (String × String) :=
  ((splitList '&' s.data).filter (fun g => !g.isEmpty)).foldl
    (fun o seg =>
      match splitFirst '=' seg with
      | some (kcs, vcs) =>
        jsSet o ⟨qsUnescapeList kcs⟩ ⟨qsUnescapeList vcs⟩
      | none => jsSet o ⟨qsUnescapeList seg⟩ "")
    []

/-- Model of Node's `querystring.stringify` on a string-valued object:
`escape(k)=escape(v)` joined with `&`, in enumeration order. -/
def qsStringify (o : List (String × String)) : String :=
  jsJoin "&" (o.map (fun p =>
    encodeURIComponent p.1 ++ "=" ++ encodeURIComponent p.2))

/-! ### Model of Node's legacy `url` module, as consumed by `prepare` -/

/-- The slice of a parsed URL that `prepare` reads and writes.  Node's
`url.parse` splits a URL into many components, but `prepare` only ever
(1) reads `query`, (2) nulls `query`/`search` and re-formats, and
(3) replaces `query`/`search` and re-formats; `url.format` concatenates
`protocol + slashes + auth + host + pathname` back verbatim for URLs in
this flow, so those components are kept joined in `base`.  Fragments
(`#`) are not modelled (treated as ordinary characters); the witnesses
and the spec's examples are fragment-free. -/
structure UriObj where
  base : String
  query : Option (List (String × String)) := none
  search : Option String := none
deriving Repr

/-- Model of `url.parse(u, parseQueryString := true, slashesDenoteHost)`
restricted as described at `UriObj`: the URL is split at its first `?`;
`search` keeps the `?`, `query` is the parsed query object (the empty
object when the URL has no query component, matching Node when
`parseQueryString` is true). -/
def urlParse (u : String) : UriObj :=
  match splitFirst '?' u.data with
  | none => { base := u, query := some [], search := none }
  | some (b, q) =>
    { base := ⟨b⟩, query := some (qsParse ⟨q⟩), search := some ("?" ++ ⟨q⟩) }

/-- Model of legacy `url.format`: the search part is `search` when
non-empty, otherwise the stringified `query` object when that has keys,
otherwise empty; a non-empty search part is prefixed with `?` unless it
already starts with one. -/
def urlFormat (uo : UriObj) : String :=
  let qstr : String :=
    match uo.query with
    | some q => if q.isEmpty then "" else qsStringify q
    | none => ""
  let search0 : String :=
    match uo.search with
    | some s => if s ≠ "" then s else (if qstr ≠ "" then "?" ++ qstr else "")
    | none => if qstr ≠ "" then "?" ++ qstr else ""
  let search :=
    if search0 ≠ "" && !(jsStartsWith search0 "?") then "?" ++ search0
    else search0
  uo.base ++ search

/-! ### Model of `JSON.parse` -/

/-- JSON values.  Number lexemes are kept as their source text: `prepare`
never computes with the parsed value, it only stores it. -/
inductive Json where
  | null
  | boolean (b : Bool)
  | number (lexeme : String)
  | str (s : String)
  | arr (elems : List Json)
  | obj (members : List (String × Json))
deriving Repr, BEq

/-- Skip JSON insignificant whitespace. -/
def jsonWs : List Char → List Char
  | c :: rest =>
    if c == ' ' || c == Char.ofNat 9 || c == Char.ofNat 10 ||
        c == Char.ofNat 13 then
      jsonWs rest
    else c :: rest
  | [] => []

/-- Lex the body of a JSON string after the opening quote, returning its
decoded characters and the input after the closing quote.  Escape
sequences follow the JSON grammar; a `\u` escape yields the code point of
its four hex digits (surrogate pairs are not recombined — not exercised
by the code under verification). -/
def jsonStringBody (l : List Char) : Option (List Char × List Char) :=
  match l with
  | [] => none
  | c :: rest =>
    if c.toNat == 34 then some ([], rest)
    else if c.toNat == 92 then
      match rest with
      | [] => none
      | e :: rest2 =>
        if e.toNat == 34 ∨ e.toNat == 92 ∨ e == '/' then
          (jsonStringBody rest2).map (fun p => (e :: p.1, p.2))
        else if e == 'b' then
          (jsonStringBody rest2).map (fun p => (Char.ofNat 8 :: p.1, p.2))
        else if e == 'f' then
          (jsonStringBody rest2).map (fun p => (Char.ofNat 12 :: p.1, p.2))
        else if e == 'n' then
          (jsonStringBody rest2).map (fun p => (Char.ofNat 10 :: p.1, p.2))
        else if e == 'r' then
          (jsonStringBody rest2).map (fun p => (Char.ofNat 13 :: p.1, p.2))
        else if e == 't' then
          (jsonStringBody rest2).map (fun p => (Char.ofNat 9 :: p.1, p.2))
        else if e == 'u' then
          match rest2 with
          | h1 :: h2 :: h3 :: h4 :: rest3 =>
            match hexVal? h1, hexVal? h2, hexVal? h3, hexVal? h4 with
            | some v1, some v2, some v3, some v4 =>
              (jsonStringBody rest3).map (fun p =>
                (Char.ofNat (4096 * v1 + 256 * v2 + 16 * v3 + v4) :: p.1,
                 p.2))
            | _, _, _, _ => none
          | _ => none
        else none
    else if c.toNat < 32 then none
    else (jsonStringBody rest).map (fun p => (c :: p.1, p.2))
termination_by l.length
decreasing_by all_goals simp_arith [*]

/-- Lex a JSON number (`-?(0|[1-9][0-9]*)(\.[0-9]+)?([eE][+-]?[0-9]+)?`),
returning its lexeme and the rest of the input. -/
def jsonNumberLex (l : List Char) : Option (List Char × List Char) :=
  let (neg, l1) :=
    match l with
    | c :: rest => if c == '-' then ([c], rest) else (([] : List Char), l)
    | [] => ([], [])
  match l1 with
  | [] => none
  | c :: rest =>
    if !c.isDigit then none
    else
      let (intPart, after) :=
        if c == '0' then ([c], rest)
        else
          let s := (c :: rest).span Char.isDigit
          (s.1, s.2)
      let (fracPart, after2) :=
        match after with
        | d :: r =>
          if d == '.' then
            match r.span Char.isDigit with
            | ([], _) => ([], none)
            | (ds, r2) => (d :: ds, some r2)
          else ([], some after)
        | [] => ([], some after)
      match after2 with
      | none => none
      | some rest2 =>
        let (expPart, after3) :=
          match rest2 with
          | e :: r =>
            if e == 'e' || e == 'E' then
              let (sgn, r1) :=
                match r with
                | s :: r1 =>
                  if s == '+' || s == '-' then ([s], r1)
                  else (([] : List Char), r)
                | [] => ([], [])
              match r1.span Char.isDigit with
              | ([], _) => ([], none)
              | (ds, r2) => (e :: (sgn ++ ds), some r2)
            else ([], some rest2)
          | [] => ([], some rest2)
        match after3 with
        | none => none
        | some rest3 =>
          some (neg ++ intPart ++ fracPart ++ expPart, rest3)

mutual

/-- Fuel-based parser for one JSON value (leading whitespace allowed). -/
def jsonValue : Nat → List Char → Option (Json × List Char)
  | 0, _ => none
  | fuel + 1, l =>
    match jsonWs l with
    | [] => none
    | c :: rest =>
      if c.toNat == 34 then
        (jsonStringBody rest).map (fun p => (Json.str ⟨p.1⟩, p.2))
      else if c == '{' then
        match jsonWs rest with
        | d :: rest2 =>
          if d == '}' then some (Json.obj [], rest2)
          else jsonObjItems fuel (d :: rest2) |>.map
            (fun p => (Json.obj p.1, p.2))
        | [] => none
      else if c == '[' then
        match jsonWs rest with
        | d :: rest2 =>
          if d == ']' then some (Json.arr [], rest2)
          else jsonArrItems fuel (d :: rest2) |>.map
            (fun p => (Json.arr p.1, p.2))
        | [] => none
      else if ['t', 'r', 'u', 'e'].isPrefixOf (c :: rest) then
        some (Json.boolean true, (c :: rest).drop 4)
      else if ['f', 'a', 'l', 's', 'e'].isPrefixOf (c :: rest) then
        some (Json.boolean false, (c :: rest).drop 5)
      else if ['n', 'u', 'l', 'l'].isPrefixOf (c :: rest) then
        some (Json.null, (c :: rest).drop 4)
      else
        (jsonNumberLex (c :: rest)).map (fun p => (Json.number ⟨p.1⟩, p.2))

/-- One-or-more comma-separated array elements followed by `]`. -/
def jsonArrItems : Nat → List Char → Option (List Json × List Char)
  | 0, _ => none
  | fuel + 1, l =>
    match jsonValue fuel l with
    | none => none
    | some (v, r) =>
      match jsonWs r with
      | c :: r2 =>
        if c == ',' then
          match jsonArrItems fuel r2 with
          | some (vs, r3) => some (v :: vs, r3)
          | none => none
        else if c == ']' then some ([v], r2)
        else none
      | [] => none

/-- One-or-more comma-separated `"key": value` members followed by `}`. -/
def jsonObjItems : Nat → List Char →
    Option (List (String × Json) × List Char)
  | 0, _ => none
  | fuel + 1, l =>
    match jsonWs l with
    | c :: rest =>
      if c.toNat == 34 then
        match jsonStringBody rest with
        | none => none
        | some (kcs, r) =>
          match jsonWs r with
          | d :: r2 =>
            if d == ':' then
              match jsonValue fuel r2 with
              | none => none
              | some (v, r3) =>
                match jsonWs r3 with
                | e :: r4 =>
                  if e == ',' then
                    match jsonObjItems fuel r4 with
                    | some (ms, r5) => some ((⟨kcs⟩, v) :: ms, r5)
                    | none => none
                  else if e == '}' then some ([(⟨kcs⟩, v)], r4)
                  else none
                | [] => none
            else none
          | [] => none
      else none
    | [] => none

end

/-- Model of `JSON.parse`: parse one value, allow trailing whitespace,
reject trailing garbage.  The fuel bound `2 * length + 4` dominates the
recursion depth (every two fuel units consume at least one character). -/
def jsonParse (s : String) : Option Json :=
  match jsonValue (2 * s.length + 4) s.data with
  | some (v, r) => if (jsonWs r).isEmpty then some v else none
  | none => none

/-! ### The canonical request model (src/types/Request.ts) -/

/-- One post-body parameter record. -/
structure Param where
  name : String
  value : String
  fileName : String := ""
  contentType : String := ""
deriving Repr, DecidableEq

/-- The post-body descriptor.  `jsonObj := none` models the `false` /
`undefined` sentinels the source stores before the JSON branch runs;
`params := none` models an absent `params` array (in JS an *empty* array
is truthy, so `none` and `some []` are deliberately distinct, as in the
source). -/
structure PostData where
  mimeType : String := "application/octet-stream"
  text : String := ""
  params : Option (List Param) := none
  jsonObj : Option Json := none
  paramsObj : Option (List (String × String)) := none
  boundary : Option String := none
deriving Repr

/-- The request record consumed and produced by `prepare`.  Headers,
cookies and query-string entries are `{name, value}` pairs, modelled as
`String × String`. -/
structure Request where
  url : String
  httpVersion : String := "HTTP/1.1"
  queryString : List (String × String) := []
  headers : List (String × String) := []
  cookies : List (String × String) := []
  postData : PostData := {}
  fullUrl : String := ""
  queryObj : List (String × String) := []
  headersObj : List (String × String) := []
  cookiesObj : List (String × String) := []
  allHeaders : List (String × String) := []
  uriObj : Option UriObj := none
deriving Repr

/-! ### Header helpers (src/helpers/headers, first unnamed source file) -/

/-- `getHeader(headers, name)`: find the first key of the object equal to
`name` ignoring case, and return its value. -/
def getHeader (headers : List (String × String)) (name : String) :
    Option String :=
  match (jsKeys headers).find? (fun k => jsToLower k == jsToLower name) with
  | none => none
  | some key => jsGet? headers key

/-- `getHeaderName(headers, name)`: `Object.keys(headers).find` with a
callback that returns the key itself on a case-insensitive match.  A
returned key is only accepted when truthy, so an empty-string key can
never be returned even when it matches (`name = ""`). -/
def getHeaderName (headers : List (String × String)) (name : String) :
    Option String :=
  (jsKeys headers).find?
    (fun k => (jsToLower k == jsToLower name) && !(k == ""))

/-- `hasHeader(headers, name)`: `Boolean(find(...))` — the found key is
coerced, so an empty-string key matching an empty `name` yields `false`.
(`find` returns the first match; for a non-empty `name` every match is a
non-empty key.) -/
def hasHeader (headers : List (String × String)) (name : String) : Bool :=
  match (jsKeys headers).find? (fun k => jsToLower k == jsToLower name) with
  | none => false
  | some k => !(k == "")

/-! ### Request canonicalization (`HTTPSnippet.prepare`) -/

/-- Modelled from the spec: the Key-Value Reducer (`./helpers/reducer`,
imported by the main module but not present under `src/`).  Per §4.2:
"Given an ordered sequence of {name, value} pairs, produce a mapping
where, for duplicate names, the entry later in the sequence overwrites
the earlier one." -/
def reducer (o : List (String × String)) (p : String × String) :
    List (String × String) :=
  jsSet o p.1 p.2

/-- Carriage return + line feed. -/
def crlf : String := ⟨[Char.ofNat 13, Char.ofNat 10]⟩

/-- Modelled from the spec: the Multipart Body Builder (the `form-data`
module and `./helpers/form-data`, not present under `src/`).  Per §4.3
step 7: "append each parameter as a multipart segment (treating values
that represent binary/file content specially by including a filename)
..., accumulate the rendered segments into `text`".  No claim observes
the exact rendering; only the control flow around it is verified. -/
def multipartBody (params : List Param) (boundary : String) : String :=
  String.join (params.map (fun p =>
    "--" ++ boundary ++ crlf ++
    "Content-Disposition: form-data; name=\x22" ++ p.name ++ "\x22" ++
    (if p.fileName ≠ "" then
      "; filename=\x22" ++ p.fileName ++ "\x22"
    else "") ++ crlf ++
    (if p.contentType ≠ "" then
      "Content-Type: " ++ p.contentType ++ crlf
    else "") ++
    crlf ++ p.value ++ crlf)) ++ "--" ++ boundary ++ "--"

/-- The `case` labels of the multipart branch of the `switch`. -/
def multipartAliases : List String :=
  ["multipart/mixed", "multipart/related", "multipart/form-data",
   "multipart/alternative"]

/-- The `case` labels of the JSON branch of the `switch`. -/
def jsonAliases : List String :=
  ["text/json", "text/x-json", "application/json", "application/x-json"]

/-- Shallow embedding of `HTTPSnippet.prepare`.  The source mutates the
request in place; here every mutation is threaded explicitly, in source
order: reset of the utility fields, `queryObj` / `headersObj` /
`cookiesObj` construction, cookie-header synthesis, the `postData`
`switch` (which may also rewrite the `content-type` header), the
`allHeaders` merge, and the URL reconciliation.  In the multipart branch
the source throws `"How did you get here?"` when the computed
content-type key is `undefined`; that branch is unreachable
(`hasHeader` succeeding on the non-empty name `"content-type"` implies
`getHeaderName` finds a non-empty key), so the model discharges it with
`getD`. -/
def prepare (request : Request) : Request :=
  let queryObj : List (String × String) :=
    if request.queryString.length > 0 then
      request.queryString.foldl reducer []
    else []
  let headersObj : List (String × String) :=
    if request.headers.length > 0 then
      request.headers.foldl
        (fun headers p =>
          let headerName :=
            if jsStartsWith request.httpVersion "HTTP/2" then jsToLower p.1
            else p.1
          jsSet headers headerName p.2)
        []
    else []
  let cookiesObj : List (String × String) :=
    if request.cookies.length > 0 then
      request.cookies.reverse.foldl
        (fun cookies p => jsSet cookies p.1 p.2) []
    else []
  let cookieStrs := request.cookies.map
    (fun c => encodeURIComponent c.1 ++ "=" ++ encodeURIComponent c.2)
  let allHeaders : List (String × String) :=
    if cookieStrs.length > 0 then [("cookie", jsJoin "; " cookieStrs)]
    else []
  let pd0 : PostData :=
    { request.postData with jsonObj := none, paramsObj := none }
  let step7 : PostData × List (String × String) :=
    if multipartAliases.contains pd0.mimeType then
      let pd := { pd0 with text := "", mimeType := "multipart/form-data" }
      match pd.params with
      | some ps =>
        let boundary := "---011000010111000001101001"
        let pd := { pd with
          text := multipartBody ps boundary, boundary := some boundary }
        let contentTypeHeader :=
          (if hasHeader headersObj "content-type" then
            getHeaderName headersObj "content-type"
          else some "content-type").getD "content-type"
        (pd, jsSet headersObj contentTypeHeader
          ("multipart/form-data; boundary=" ++ boundary))
      | none => (pd, headersObj)
    else if pd0.mimeType == "application/x-www-form-urlencoded" then
      match pd0.params with
      | none => ({ pd0 with text := "" }, headersObj)
      | some ps =>
        let paramsObj := ps.foldl (fun o p => reducer o (p.name, p.value)) []
        ({ pd0 with
            paramsObj := some paramsObj
            text := qsStringify paramsObj }, headersObj)
    else if jsonAliases.contains pd0.mimeType then
      let pd := { pd0 with mimeType := "application/json" }
      if pd.text ≠ "" then
        match jsonParse pd.text with
        | some j => ({ pd with jsonObj := some j }, headersObj)
        | none => ({ pd with mimeType := "text/plain" }, headersObj)
      else (pd, headersObj)
    else (pd0, headersObj)
  let pd1 := step7.1
  let headersObj := step7.2
  let allHeaders := jsAssign allHeaders headersObj
  let uriObj := urlParse request.url
  let queryObj := jsAssign queryObj (uriObj.query.getD [])
  let url := urlFormat { uriObj with query := none, search := none }
  let uriObj2 : UriObj := { uriObj with
    query := some queryObj, search := some (qsStringify queryObj) }
  let fullUrl := urlFormat uriObj2
  { request with
      url := url
      fullUrl := fullUrl
      queryObj := queryObj
      headersObj := headersObj
      cookiesObj := cookiesObj
      allHeaders := allHeaders
      postData := pd1
      uriObj := some uriObj2 }

/-! ### Target registry and dispatch -/

/-- A JavaScript value as inspected by the dispatch code: either a string
(a candidate client key) or some non-string value such as an options
object, kept opaque.  This mirrors the `typeof client === "string"`
test. -/
inductive JsVal where
  | str (s : String)
  | objVal (id : Nat)
deriving Repr, DecidableEq

/-- A client generator function `(request, options) -> string`. -/
def Gen : Type := Request → Option JsVal → String

/-- `target.info` as inspected by `addTarget`: the source probes each
property with the `in` operator, so every field is optional here. -/
structure TargetInfo where
  key : Option String := none
  title : Option String := none
  extname : Option String := none
  default : Option String := none

/-- A target: the reserved `info` entry plus the client-generator
entries.  In JS these share one object; `Object.keys(target).length
=== 1` says the object has no key besides `info`, i.e. `clients` is
empty. -/
structure Target where
  info : Option TargetInfo := none
  clients : List (String × Gen) := []

/-- The process-wide `targets` mapping, threaded explicitly. -/
def Registry : Type := List (String × Target)

/-- Shallow embedding of `module.exports.addTarget`.  The source throws
(`RegistrationError` in the spec's taxonomy) before any mutation, so
failure is an `Except.error` carrying the thrown message and the registry
value is untouched; success performs the single insertion
`targets[target.info.key] = target`. -/
def addTarget (targets : Registry) (target : Target) :
    Except String Registry :=
  match target.info with
  | none =>
    .error "The supplied custom target must contain an `info` object."
  | some info =>
    match info.key, info.title, info.extname, info.default with
    | some key, some _, some _, some _ =>
      if (jsGet? targets key).isSome then
        .error "The supplied custom target already exists."
      else if target.clients.isEmpty then
        .error "A custom target must have a client defined on it."
      else
        .ok (jsSet targets key target)
    | _, _, _, _ =>
      .error "The supplied custom target must have an `info` object with a `key`, `title`, `extname`, and `default` property."

/-- The generator registered under a target's declared default client
key.  A registered target always carries `info` (enforced by `addTarget`
and by construction of the built-ins); an absent `info` or default key is
modelled as resolving no generator (in JS the former would throw a
`TypeError`, the latter yields `undefined` and hence the dispatch
sentinel). -/
def defaultGen (t : Target) : Option Gen :=
  match t.info with
  | some i =>
    match i.default with
    | some d => jsGet? t.clients d
    | none => none
  | none => none

/-- Shallow embedding of `HTTPSnippet._matchTarget`: `none` when the
target key is unknown; a string client key with a registered generator
selects that generator; anything else falls back to the target's default
client. -/
def matchTarget (targets : Registry) (target : String)
    (client : Option JsVal) : Option Gen :=
  match jsGet? targets target with
  | none => none
  | some t =>
    match client with
    | some (JsVal.str c) =>
      match jsGet? t.clients c with
      | some f => some f
      | none => defaultGen t
    | _ => defaultGen t

/-- The value `convert` returns on a match: the bare generator result for
a batch of exactly one request, otherwise the list of results. -/
inductive ConvertResult where
  | one (s : String)
  | many (ss : List String)

/-- Shallow embedding of `HTTPSnippet.convert`.  `this.requests` is
passed explicitly.  `if (!opts && client) opts = client` is the overload
resolution: an absent third argument makes the second argument double as
the options value.  The sentinel `false` for an unresolved target is
`none`. -/
def convert (targets : Registry) (requests : List Request)
    (target : String) (client opts : Option JsVal) :
    Option ConvertResult :=
  let opts := if opts.isNone && client.isSome then client else opts
  match matchTarget targets target client with
  | some f =>
    let results := requests.map (fun r => f r opts)
    match results with
    | [x] => some (ConvertResult.one x)
    | _ => some (ConvertResult.many results)
  | none => none

/-! ### Theorems about `prepare` -/

/-- Outside the multipart branch (which may additionally rewrite the
`content-type` entry), the prepared `headersObj` is exactly the left fold
of lines 111–123 of the source. -/
theorem guard_foldl {α β : Type} (l : List α) (g : List β → α → List β) :
    (if l.length > 0 then l.foldl g [] else []) = l.foldl g [] := by
  cases l <;> simp

theorem headersObj_prepare (req : Request)
    (hmt : req.postData.mimeType ∉ multipartAliases) :
    (prepare req).headersObj =
      req.headers.foldl
        (fun headers p =>
          jsSet headers
            (if jsStartsWith req.httpVersion "HTTP/2" then jsToLower p.1
             else p.1) p.2) [] := by
  have hc : multipartAliases.contains req.postData.mimeType = false := by
    simpa using hmt
  unfold prepare
  simp only [hc, Bool.false_eq_true, if_false, guard_foldl]
  repeat' split
  all_goals rfl

/-- C1: for every headers sequence, canonicalization builds `headersObj`
by a left fold in which a later entry sharing the same (inserted) name
overwrites an earlier one — the value found under a key `k` is the value
of the last header whose inserted name is `k` — and the inserted name is
the lowercased header name exactly when `httpVersion` starts with
`HTTP/2`, the original name otherwise.  (Outside the multipart branch,
which may additionally rewrite the `content-type` entry afterwards.) -/
theorem headersObj_fold_last_wins (req : Request) (k : String)
    (hmt : req.postData.mimeType ∉ multipartAliases) :
    jsGet? (prepare req).headersObj k =
      ((req.headers.filter (fun p =>
          (if jsStartsWith req.httpVersion "HTTP/2" then jsToLower p.1
           else p.1) == k)).getLast?).map (fun p => p.2) := by
  rw [headersObj_prepare req hmt]
  exact jsGet?_foldl_jsSet_nil
    (fun p => if jsStartsWith req.httpVersion "HTTP/2" then jsToLower p.1
      else p.1)
    req.headers k

/-- Witness for C1 at concrete inputs: an HTTP/2 request lowercases
`X-A`/`x-a` into one last-wins entry, an HTTP/1.1 request keeps `X-A`
under its original casing. -/
theorem headersObj_fold_last_wins_witness :
    let req2 : Request :=
      { url := "http://x.test/p"
        httpVersion := "HTTP/2"
        headers := [("X-A", "1"), ("x-a", "2"), ("B", "3")] }
    let req1 : Request := { req2 with httpVersion := "HTTP/1.1" }
    req2.postData.mimeType ∉ multipartAliases ∧
    jsGet? (prepare req2).headersObj "x-a" =
      ((req2.headers.filter (fun p =>
          (if jsStartsWith req2.httpVersion "HTTP/2" then jsToLower p.1
           else p.1) == "x-a")).getLast?).map (fun p => p.2) ∧
    jsGet? (prepare req1).headersObj "X-A" =
      ((req1.headers.filter (fun p =>
          (if jsStartsWith req1.httpVersion "HTTP/2" then jsToLower p.1
           else p.1) == "X-A")).getLast?).map (fun p => p.2) := by
  refine ⟨by decide, ?_, ?_⟩
  · exact headersObj_fold_last_wins _ "x-a" (by decide)
  · exact headersObj_fold_last_wins _ "X-A" (by decide)

theorem toNat_charOfNat_of_valid (n : Nat) (h : n.isValidChar) :
    (Char.ofNat n).toNat = n := by
  simp [Char.ofNat, dif_pos h, Char.ofNatAux, Char.toNat, UInt32.toNat]

theorem toLower_idem (c : Char) : c.toLower.toLower = c.toLower := by
  unfold Char.toLower
  by_cases h : c.toNat ≥ 65 ∧ c.toNat ≤ 90
  · rw [if_pos h]
    have hv : (c.toNat + 32).isValidChar := Or.inl (by omega)
    rw [toNat_charOfNat_of_valid _ hv, if_neg (by omega)]
  · rw [if_neg h, if_neg h]

theorem jsToLower_idem (s : String) : jsToLower (jsToLower s) = jsToLower s := by
  refine congrArg String.mk ?_
  show (s.data.map Char.toLower).map Char.toLower = s.data.map Char.toLower
  rw [List.map_map]
  exact List.map_congr_left (fun c _ => toLower_idem c)

theorem mem_jsKeys_jsSet {α : Type} (o : List (String × α)) (k a : String)
    (v : α) : a ∈ jsKeys (jsSet o k v) ↔ a ∈ jsKeys o ∨ a = k := by
  induction o with
  | nil => simp [jsSet, jsKeys]
  | cons p rest ih =>
    by_cases hp : p.1 = k
    · simp only [jsSet, hp, beq_self_eq_true, if_true, jsKeys,
        List.map_cons, List.mem_cons]
      constructor
      · rintro (h | h)
        · exact Or.inr h
        · exact Or.inl (Or.inr h)
      · rintro ((h | h) | h)
        · exact Or.inl (hp ▸ h)
        · exact Or.inr h
        · exact Or.inl h
    · have hp' : (p.1 == k) = false := by simpa using hp
      simp only [jsSet, hp', Bool.false_eq_true, if_false, jsKeys,
        List.map_cons, List.mem_cons]
      have := ih
      simp only [jsKeys] at this
      rw [this]
      tauto

theorem nodup_jsKeys_jsSet {α : Type} (o : List (String × α)) (k : String)
    (v : α) (h : (jsKeys o).Nodup) : (jsKeys (jsSet o k v)).Nodup := by
  induction o with
  | nil => simp [jsSet, jsKeys]
  | cons p rest ih =>
    simp only [jsKeys, List.map_cons, List.nodup_cons] at h
    by_cases hp : p.1 = k
    · simp only [jsSet, hp, beq_self_eq_true, if_true, jsKeys,
        List.map_cons, List.nodup_cons]
      exact ⟨hp ▸ h.1, h.2⟩
    · have hp' : (p.1 == k) = false := by simpa using hp
      simp only [jsSet, hp', Bool.false_eq_true, if_false, jsKeys,
        List.map_cons, List.nodup_cons]
      refine ⟨?_, ih h.2⟩
      rw [show (rest.map fun p => p.1) = jsKeys rest from rfl] at h
      rw [show ((jsSet rest k v).map fun p => p.1) = jsKeys (jsSet rest k v)
        from rfl]
      rw [mem_jsKeys_jsSet]
      rintro (hm | hm)
      · exact h.1 hm
      · exact hp hm

theorem mem_jsKeys_foldl {α : Type} (f : String × α → String)
    (l init : List (String × α)) (a : String) :
    a ∈ jsKeys (l.foldl (fun o p => jsSet o (f p) p.2) init) ↔
      a ∈ jsKeys init ∨ ∃ p ∈ l, f p = a := by
  induction l generalizing init with
  | nil => simp
  | cons p rest ih =>
    rw [List.foldl_cons, ih, mem_jsKeys_jsSet]
    constructor
    · rintro ((h | h) | ⟨q, hq, hfq⟩)
      · exact Or.inl h
      · exact Or.inr ⟨p, List.mem_cons_self .., h.symm⟩
      · exact Or.inr ⟨q, List.mem_cons_of_mem _ hq, hfq⟩
    · rintro (h | ⟨q, hq, hfq⟩)
      · exact Or.inl (Or.inl h)
      · rcases List.mem_cons.mp hq with rfl | hq'
        · exact Or.inl (Or.inr hfq.symm)
        · exact Or.inr ⟨q, hq', hfq⟩

theorem nodup_jsKeys_foldl {α : Type} (f : String × α → String)
    (l init : List (String × α)) (h : (jsKeys init).Nodup) :
    (jsKeys (l.foldl (fun o p => jsSet o (f p) p.2) init)).Nodup := by
  induction l generalizing init with
  | nil => exact h
  | cons p rest ih =>
    rw [List.foldl_cons]
    exact ih _ (nodup_jsKeys_jsSet _ _ _ h)

theorem filter_eq_singleton_of_nodup {l : List String} {p : String → Bool}
    {a : String} (hn : l.Nodup) (ha : a ∈ l) (hp : p a = true)
    (hall : ∀ x ∈ l, p x = true → x = a) : l.filter p = [a] := by
  induction l with
  | nil => cases ha
  | cons b rest ih =>
    rcases List.mem_cons.mp ha with rfl | ha'
    · rw [List.filter_cons_of_pos hp]
      have : rest.filter p = [] := by
        rw [List.filter_eq_nil_iff]
        intro x hx hpx
        have := hall x (List.mem_cons_of_mem _ hx) (by simpa using hpx)
        exact absurd (this ▸ hx) (List.nodup_cons.mp hn).1
      rw [this]
    · have hb : p b = false := by
        rcases hpb : p b with _ | _
        · rfl
        · have := hall b (List.mem_cons_self ..) hpb
          exact absurd (this ▸ ha') (List.nodup_cons.mp hn).1
      rw [List.filter_cons_of_neg (by simp [hb])]
      exact ih (List.nodup_cons.mp hn).2 ha'
        (fun x hx hpx => hall x (List.mem_cons_of_mem _ hx) hpx)

/-- C2 counterexample: under `HTTP/1.1` (names are not lowercased) the
headers `X-A: 1` and `x-a: 2` have case-insensitively equal names, yet
the prepared `headersObj` keeps *two* entries — the first still holding
the value `"1"` of the *first* occurrence — refuting "exactly one entry
for that name whose value is the value of the last occurrence
(regardless of httpVersion)". -/
theorem headersObj_dup_names_counterexample :
    jsToLower "X-A" = jsToLower "x-a" ∧
    (prepare
      { url := "http://x.test/p"
        httpVersion := "HTTP/1.1"
        headers := [("X-A", "1"), ("x-a", "2")] }).headersObj =
      [("X-A", "1"), ("x-a", "2")] ∧
    ((jsKeys (prepare
      { url := "http://x.test/p"
        httpVersion := "HTTP/1.1"
        headers := [("X-A", "1"), ("x-a", "2")] }).headersObj).filter
        (fun k => jsToLower k == jsToLower "x-a")).length = 2 := by
  decide

/-- C2 (amended): when `httpVersion` starts with `HTTP/2` (and the
request is outside the multipart branch, which may rewrite the
`content-type` entry), all header names sharing a lowercase form `ℓ`
collapse into exactly one `headersObj` entry, keyed `ℓ`, holding the
value of the last such header in sequence order; for other versions only
exactly-equal duplicate names collapse, while duplicates that differ in
case remain separate entries (see the counterexample). -/
theorem headersObj_http2_dup_collapse (req : Request) (n : String)
    (hv : jsStartsWith req.httpVersion "HTTP/2" = true)
    (hmt : req.postData.mimeType ∉ multipartAliases) :
    jsGet? (prepare req).headersObj (jsToLower n) =
      ((req.headers.filter (fun p =>
        jsToLower p.1 == jsToLower n)).getLast?).map (fun p => p.2) ∧
    (jsKeys (prepare req).headersObj).filter
        (fun k => jsToLower k == jsToLower n) =
      (if req.headers.any (fun p => jsToLower p.1 == jsToLower n) then
        [jsToLower n]
      else []) := by
  have hobj := headersObj_prepare req hmt
  simp only [hv, if_true] at hobj
  constructor
  · rw [hobj]
    exact jsGet?_foldl_jsSet_nil (fun p => jsToLower p.1) req.headers
      (jsToLower n)
  · rw [hobj]
    have hnodup : (jsKeys (req.headers.foldl
        (fun o p => jsSet o (jsToLower p.1) p.2) [])).Nodup :=
      nodup_jsKeys_foldl (fun p => jsToLower p.1) req.headers []
        (by simp [jsKeys])
    have hmem : ∀ a, a ∈ jsKeys (req.headers.foldl
        (fun o p => jsSet o (jsToLower p.1) p.2) []) ↔
        ∃ p ∈ req.headers, jsToLower p.1 = a := by
      intro a
      rw [mem_jsKeys_foldl (fun p => jsToLower p.1) req.headers []]
      simp [jsKeys]
    rcases hany : req.headers.any (fun p => jsToLower p.1 == jsToLower n)
      with _ | _
    · simp only [if_false, Bool.false_eq_true]
      rw [List.filter_eq_nil_iff]
      intro x hx
      obtain ⟨p, hp, hfp⟩ := (hmem x).mp hx
      have hx_fix : jsToLower x = x := hfp ▸ jsToLower_idem p.1
      simp only [hx_fix, beq_iff_eq]
      intro hxn
      have : req.headers.any (fun p => jsToLower p.1 == jsToLower n) =
          true :=
        List.any_eq_true.mpr ⟨p, hp, by simp [hfp, hxn]⟩
      rw [hany] at this
      cases this
    · simp only [if_true]
      obtain ⟨p, hp, hfp⟩ := List.any_eq_true.mp hany
      refine filter_eq_singleton_of_nodup hnodup ?_ ?_ ?_
      · exact (hmem (jsToLower n)).mpr ⟨p, hp, by simpa using hfp⟩
      · simp [jsToLower_idem]
      · intro x hx hpx
        obtain ⟨q, hq, hfq⟩ := (hmem x).mp hx
        have hx_fix : jsToLower x = x := hfq ▸ jsToLower_idem q.1
        rw [hx_fix] at hpx
        exact (beq_iff_eq ..).mp hpx

/-- Witness for C2's amended theorem: an `HTTP/2.0` request with headers
`X-A: 1`, `x-a: 2`, `B: 3` yields exactly one entry `x-a` holding the
last value `"2"`. -/
theorem headersObj_http2_dup_collapse_witness :
    let req : Request :=
      { url := "http://x.test/p"
        httpVersion := "HTTP/2.0"
        headers := [("X-A", "1"), ("x-a", "2"), ("B", "3")] }
    jsStartsWith req.httpVersion "HTTP/2" = true ∧
    req.postData.mimeType ∉ multipartAliases ∧
    (jsGet? (prepare req).headersObj (jsToLower "X-A") =
      ((req.headers.filter (fun p =>
        jsToLower p.1 == jsToLower "X-A")).getLast?).map (fun p => p.2) ∧
    (jsKeys (prepare req).headersObj).filter
        (fun k => jsToLower k == jsToLower "X-A") =
      (if req.headers.any (fun p => jsToLower p.1 == jsToLower "X-A") then
        [jsToLower "X-A"]
      else [])) :=
  ⟨by decide, by decide,
    headersObj_http2_dup_collapse _ "X-A" (by decide) (by decide)⟩

theorem guard_foldl_reverse {α β : Type} (l : List α)
    (g : List β → α → List β) :
    (if l.length > 0 then l.reverse.foldl g [] else []) =
      l.reverse.foldl g [] := by
  cases l <;> simp

/-- The prepared `cookiesObj` is the right-to-left fold of lines 126–131
of the source (no later step touches it). -/
theorem cookiesObj_prepare (req : Request) :
    (prepare req).cookiesObj =
      req.cookies.reverse.foldl (fun o p => jsSet o p.1 p.2) [] := by
  unfold prepare
  simp only [guard_foldl_reverse]

/-- C3: for every cookie sequence (duplicates included), the prepared
`cookiesObj` maps each name to the value of its *first* occurrence in
sequence order — `List.find?` — the opposite precedence from
`headersObj`, where the last occurrence wins. -/
theorem cookiesObj_first_wins (req : Request) (n : String) :
    jsGet? (prepare req).cookiesObj n =
      (req.cookies.find? (fun c => c.1 == n)).map (fun c => c.2) := by
  rw [cookiesObj_prepare]
  exact jsGet?_foldl_jsSet_reverse req.cookies n

/-- The prepared `queryObj` is the step-3 reducer fold overlaid
(`Object.assign`) with the URL's own parsed query component. -/
theorem queryObj_prepare (req : Request) :
    (prepare req).queryObj =
      jsAssign
        (if req.queryString.length > 0 then
          req.queryString.foldl reducer []
        else [])
        ((urlParse req.url).query.getD []) := by
  unfold prepare
  repeat' split
  all_goals rfl

/-- With unique keys, the last and the first match coincide. -/
theorem filter_getLast?_eq_find? {α : Type} (s : List (String × α))
    (k : String) (hnd : (jsKeys s).Nodup) :
    (s.filter (fun p => p.1 == k)).getLast? = s.find? (fun p => p.1 == k) := by
  induction s with
  | nil => rfl
  | cons p rest ih =>
    simp only [jsKeys, List.map_cons, List.nodup_cons] at hnd
    by_cases hp : p.1 = k
    · have hp' : (p.1 == k) = true := by simpa using hp
      have hrest : rest.filter (fun q => q.1 == k) = [] := by
        rw [List.filter_eq_nil_iff]
        intro q hq hqk
        refine absurd ?_ hnd.1
        have hq1 : q.1 = p.1 := by
          have : q.1 = k := by simpa using hqk
          rw [this, hp]
        have hmem : q.1 ∈ rest.map (fun p => p.1) :=
          List.mem_map_of_mem _ hq
        rwa [hq1] at hmem
      simp [List.filter_cons, hp', hrest, List.find?]
    · have hp' : (p.1 == k) = false := by simpa using hp
      simp only [List.filter_cons, hp', Bool.false_eq_true, if_false,
        List.find?]
      rw [ih hnd.2]

/-- `nodup_jsKeys_foldl` for an arbitrary key/value extraction. -/
theorem nodup_jsKeys_foldl2 {β α : Type} (key : β → String) (val : β → α)
    (l : List β) (init : List (String × α)) (h : (jsKeys init).Nodup) :
    (jsKeys (l.foldl (fun o b => jsSet o (key b) (val b)) init)).Nodup := by
  induction l generalizing init with
  | nil => exact h
  | cons b rest ih => exact ih _ (nodup_jsKeys_jsSet _ _ _ h)

theorem nodup_jsKeys_qsParse (s : String) : (jsKeys (qsParse s)).Nodup := by
  unfold qsParse
  have hbody : (fun (o : List (String × String)) (seg : List Char) =>
      match splitFirst '=' seg with
      | some (kcs, vcs) =>
        jsSet o (⟨qsUnescapeList kcs⟩ : String)
          (⟨qsUnescapeList vcs⟩ : String)
      | none => jsSet o (⟨qsUnescapeList seg⟩ : String) "") =
      fun o seg => jsSet o
        (match splitFirst '=' seg with
         | some (kcs, _) => (⟨qsUnescapeList kcs⟩ : String)
         | none => ⟨qsUnescapeList seg⟩)
        (match splitFirst '=' seg with
         | some (_, vcs) => (⟨qsUnescapeList vcs⟩ : String)
         | none => "") := by
    funext o seg
    rcases splitFirst '=' seg with _ | ⟨kcs, vcs⟩ <;> rfl
  rw [hbody]
  exact nodup_jsKeys_foldl2 _ _ _ [] (by simp [jsKeys])

theorem jsGet?_jsAssign {α : Type} (t s : List (String × α)) (k : String) :
    jsGet? (jsAssign t s) k =
      match (s.filter (fun p => p.1 == k)).getLast? with
      | some p => some p.2
      | none => jsGet? t k :=
  jsGet?_foldl_jsSet (fun p => p.1) s t k

theorem nodup_jsKeys_urlQuery (u : String) :
    (jsKeys ((urlParse u).query.getD [])).Nodup := by
  unfold urlParse
  rcases splitFirst '?' u.data with _ | ⟨b, q⟩
  · simp [jsKeys]
  · simpa using nodup_jsKeys_qsParse ⟨q⟩

/-- C4: whenever the query component embedded in the raw URL defines a
key, the final `queryObj` maps that key to the URL-embedded value —
regardless of what the explicit query-string sequence said for it. -/
theorem queryObj_url_embedded_wins (req : Request) (k v : String)
    (h : jsGet? ((urlParse req.url).query.getD []) k = some v) :
    jsGet? (prepare req).queryObj k = some v := by
  rw [queryObj_prepare, jsGet?_jsAssign,
    filter_getLast?_eq_find? _ _ (nodup_jsKeys_urlQuery req.url)]
  unfold jsGet? at h
  rcases hf : ((urlParse req.url).query.getD []).find? (fun p => p.1 == k)
    with _ | p
  · rw [hf] at h
    cases h
  · rw [hf] at h
    rw [hf]
    simpa using h

/-- Witness for C4 at the claim's example: explicit pair `a=1` with URL
`http://x.test/path?a=2` yields `queryObj.a = "2"`. -/
theorem queryObj_url_embedded_wins_witness :
    let req : Request :=
      { url := "http://x.test/path?a=2", queryString := [("a", "1")] }
    jsGet? ((urlParse req.url).query.getD []) "a" = some "2" ∧
    jsGet? (prepare req).queryObj "a" = some "2" :=
  ⟨by decide, queryObj_url_embedded_wins _ "a" "2" (by decide)⟩

theorem url_prepare (req : Request) :
    (prepare req).url =
      urlFormat { urlParse req.url with query := none, search := none } := by
  unfold prepare
  repeat' split
  all_goals rfl

theorem fullUrl_prepare (req : Request) :
    (prepare req).fullUrl =
      urlFormat
        { base := (urlParse req.url).base
          query := some ((prepare req).queryObj)
          search := some (qsStringify ((prepare req).queryObj)) } := by
  unfold prepare
  repeat' split
  all_goals rfl

theorem urlFormat_no_query (b : String) :
    urlFormat { base := b, query := none, search := none } = b := by
  simp [urlFormat]

theorem splitFirst_elim_takeWhile (sep : Char) (l : List Char) :
    (splitFirst sep l).elim l Prod.fst =
      l.takeWhile (fun c => !(c == sep)) := by
  induction l with
  | nil => rfl
  | cons c rest ih =>
    by_cases hc : c = sep
    · simp [splitFirst, hc, List.takeWhile_cons]
    · have hc' : (c == sep) = false := by simpa using hc
      simp only [splitFirst, hc', Bool.false_eq_true, if_false,
        List.takeWhile_cons, Bool.not_false]
      rcases hs : splitFirst sep rest with _ | ⟨b, r⟩
      · rw [hs] at ih
        simpa using congrArg (List.cons c) ih
      · rw [hs] at ih
        simpa using congrArg (List.cons c) ih

theorem urlParse_base (u : String) :
    (urlParse u).base = ⟨u.data.takeWhile (fun c => !(c == '?'))⟩ := by
  have h := splitFirst_elim_takeWhile '?' u.data
  unfold urlParse
  rcases hs : splitFirst '?' u.data with _ | ⟨b, q⟩
  · rw [hs] at h
    simp only [Option.elim] at h
    simp [← h]
  · rw [hs] at h
    simp only [Option.elim] at h
    simp [← h]

theorem utf8Bytes_ne_nil (c : Char) : utf8Bytes c ≠ [] := by
  unfold utf8Bytes
  simp only []
  split_ifs <;> simp

theorem not_qm_prefix_encode_append (s : String) (tail : List Char) :
    (['?'].isPrefixOf ((encodeURIComponent s).data ++ '=' :: tail)) =
      false := by
  show (['?'].isPrefixOf ((s.data.flatMap _) ++ '=' :: tail)) = false
  rcases hs : s.data with _ | ⟨c, cs⟩
  · simp [List.isPrefixOf]
  · rw [List.flatMap_cons]
    by_cases hu : isUriUnreserved c
    · have hc : ¬ c = '?' := by
        intro h
        rw [h] at hu
        exact absurd hu (by decide)
      simp [hu, List.isPrefixOf, hc, Ne.symm hc]
    · rcases hb : utf8Bytes c with _ | ⟨b, bs⟩
      · exact absurd hb (utf8Bytes_ne_nil c)
      · simp [hu, hb, percentByte, List.isPrefixOf]

theorem not_qm_prefix_pe (a b t : String) :
    jsStartsWith ((encodeURIComponent a ++ "=" ++ encodeURIComponent b) ++ t)
      "?" = false := by
  unfold jsStartsWith
  have h := not_qm_prefix_encode_append a ((encodeURIComponent b).data ++ t.data)
  have hd : ((encodeURIComponent a ++ "=" ++ encodeURIComponent b) ++ t).data =
      (encodeURIComponent a).data ++
        '=' :: ((encodeURIComponent b).data ++ t.data) := by
    simp [String.data_append]
  rw [hd]
  exact h

theorem qsStringify_not_starts_qm (q : List (String × String)) :
    jsStartsWith (qsStringify q) "?" = false := by
  cases q with
  | nil => rfl
  | cons p rest =>
    unfold qsStringify
    rw [List.map_cons]
    cases rest with
    | nil =>
      show jsStartsWith
        (encodeURIComponent p.1 ++ "=" ++ encodeURIComponent p.2) "?" = false
      have h := not_qm_prefix_pe p.1 p.2 ""
      simpa using h
    | cons y r =>
      show jsStartsWith
        ((encodeURIComponent p.1 ++ "=" ++ encodeURIComponent p.2) ++ "&" ++
          jsJoin "&" ((y :: r).map (fun p =>
            encodeURIComponent p.1 ++ "=" ++ encodeURIComponent p.2)))
        "?" = false
      rw [String.append_assoc]
      exact not_qm_prefix_pe p.1 p.2 _

theorem urlFormat_with_search (b : String) (q : List (String × String)) :
    urlFormat { base := b, query := some q, search := some (qsStringify q) } =
      if qsStringify q = "" then b else b ++ "?" ++ qsStringify q := by
  by_cases hs : qsStringify q = ""
  · rw [if_pos hs]
    simp [urlFormat, hs, ite_self]
  · rw [if_neg hs]
    simp [urlFormat, hs, qsStringify_not_starts_qm, String.append_assoc]

/-- C5: with no explicit query-string sequence, canonicalization yields a
`url` equal to the raw URL truncated at its first `?` (the query/search
removed) and a `fullUrl` equal to that path-only `url` with the
re-serialized final `queryObj` appended after `?` whenever that
serialization is non-empty. -/
theorem prepare_url_roundtrip (req : Request)
    (hq : req.queryString = [])
    (hurl : (splitFirst '?' req.url.data).isSome = true) :
    (prepare req).url =
      (⟨req.url.data.takeWhile (fun c => !(c == '?'))⟩ : String) ∧
    (prepare req).fullUrl =
      (if qsStringify ((prepare req).queryObj) = "" then (prepare req).url
       else (prepare req).url ++ "?" ++ qsStringify ((prepare req).queryObj)) := by
  have h1 : (prepare req).url = (urlParse req.url).base := by
    rw [url_prepare]
    exact urlFormat_no_query _
  refine ⟨by rw [h1, urlParse_base], ?_⟩
  rw [fullUrl_prepare, urlFormat_with_search, ← h1]

/-- Witness for C5 at the spec's round-trip example: raw URL
`http://x.test/p?x=1` and no explicit query string give
`url = "http://x.test/p"` and `fullUrl = "http://x.test/p?x=1"`. -/
theorem prepare_url_roundtrip_witness :
    let req : Request := { url := "http://x.test/p?x=1" }
    (req.queryString = [] ∧ (splitFirst '?' req.url.data).isSome = true) ∧
    ((prepare req).url =
      (⟨req.url.data.takeWhile (fun c => !(c == '?'))⟩ : String) ∧
     (prepare req).fullUrl =
      (if qsStringify ((prepare req).queryObj) = "" then (prepare req).url
       else (prepare req).url ++ "?" ++
         qsStringify ((prepare req).queryObj))) ∧
    (prepare req).url = "http://x.test/p" ∧
    (prepare req).fullUrl = "http://x.test/p?x=1" :=
  ⟨⟨rfl, by decide⟩, prepare_url_roundtrip _ rfl (by decide),
    by decide, by decide⟩

/-- C6: under a JSON-family mimeType (`text/json`, `text/x-json`,
`application/json`, `application/x-json`) the canonical mimeType becomes
`application/json`; when the body text is non-empty and parses as JSON,
`jsonObj` holds the parsed value; when parsing fails the mimeType falls
back to `text/plain`; in every case the body text is left unchanged, and
`prepare` returns normally (the parse error is swallowed — `prepare` is a
total function into `Request`, not an error type). -/
theorem json_family_normalization (req : Request)
    (h : req.postData.mimeType ∈ jsonAliases) :
    (prepare req).postData.text = req.postData.text ∧
    (prepare req).postData.mimeType =
      (if req.postData.text ≠ "" ∧ (jsonParse req.postData.text).isNone = true then
        "text/plain"
      else "application/json") ∧
    (prepare req).postData.jsonObj =
      (if req.postData.text = "" then none
       else jsonParse req.postData.text) := by
  have hmult : multipartAliases.contains req.postData.mimeType = false := by
    simp only [jsonAliases, List.mem_cons, List.not_mem_nil, or_false] at h
    rcases h with hm | hm | hm | hm <;> simp [multipartAliases, hm]
  have hurl2 : (req.postData.mimeType ==
      "application/x-www-form-urlencoded") = false := by
    simp only [jsonAliases, List.mem_cons, List.not_mem_nil, or_false] at h
    rcases h with hm | hm | hm | hm <;> simp [hm]
  have hjson : jsonAliases.contains req.postData.mimeType = true := by
    simpa using h
  unfold prepare
  simp only [hmult, hurl2, hjson, Bool.false_eq_true, if_false, if_true]
  by_cases ht : req.postData.text = ""
  · simp [ht]
  · rcases hp : jsonParse req.postData.text with _ | j
    · simp [ht, hp]
    · simp [ht, hp]

/-- Witness for C6 at the spec's example: mimeType `application/json`
with text `"\x7bbad json"` yields mimeType `text/plain`, an unchanged text
and no parsed value. -/
theorem json_family_normalization_witness :
    let req : Request :=
      { url := "http://x.test/p"
        postData := { mimeType := "application/json", text := "\x7bbad json" } }
    req.postData.mimeType ∈ jsonAliases ∧
    ((prepare req).postData.text = req.postData.text ∧
     (prepare req).postData.mimeType =
      (if req.postData.text ≠ "" ∧ (jsonParse req.postData.text).isNone = true then
        "text/plain"
      else "application/json") ∧
     (prepare req).postData.jsonObj =
      (if req.postData.text = "" then none
       else jsonParse req.postData.text)) ∧
    (prepare req).postData.mimeType = "text/plain" ∧
    (prepare req).postData.text = "\x7bbad json" :=
  ⟨by decide, json_family_normalization _ (by decide), by decide, by decide⟩

/-- C7: under mimeType `application/x-www-form-urlencoded`, absent
parameters make `postData.text` the empty string; otherwise `paramsObj`
is the last-duplicate-wins mapping over the parameters (the value found
for a name is the value of the last parameter carrying it) and
`postData.text` becomes the percent-encoded query-string serialization
of `paramsObj` — an expression independent of the pre-existing text,
which is thereby always overwritten. -/
theorem urlencoded_normalization (req : Request)
    (h : req.postData.mimeType = "application/x-www-form-urlencoded") :
    match req.postData.params with
    | none =>
      (prepare req).postData.text = "" ∧
      (prepare req).postData.paramsObj = none
    | some ps =>
      (prepare req).postData.paramsObj =
        some (ps.foldl (fun o p => reducer o (p.name, p.value)) []) ∧
      (prepare req).postData.text =
        qsStringify (ps.foldl (fun o p => reducer o (p.name, p.value)) []) ∧
      ∀ k, jsGet? (ps.foldl (fun o p => reducer o (p.name, p.value)) []) k =
        ((ps.filter (fun p => p.name == k)).getLast?).map
          (fun p => p.value) := by
  have hmult : multipartAliases.contains req.postData.mimeType = false := by
    simp [multipartAliases, h]
  have hurl : (req.postData.mimeType ==
      "application/x-www-form-urlencoded") = true := by
    simp [h]
  unfold prepare
  simp only [hmult, hurl, Bool.false_eq_true, if_false, if_true]
  rcases hp : req.postData.params with _ | ps
  · simp [hp]
  · simp only [hp]
    refine ⟨trivial, trivial, fun k => ?_⟩
    exact jsGet?_foldl_jsSet_nil2 (fun p => p.name) (fun p => p.value) ps k

/-- Witness for C7 at the spec's example: parameters
`[a=1, a=2]` serialize to `text = "a=2"`; also covers the absent-params
case giving the empty text. -/
theorem urlencoded_normalization_witness :
    let req : Request :=
      { url := "http://x.test/p"
        postData :=
          { mimeType := "application/x-www-form-urlencoded"
            text := "stale"
            params := some [{ name := "a", value := "1" },
                            { name := "a", value := "2" }] } }
    let req0 : Request :=
      { url := "http://x.test/p"
        postData := { mimeType := "application/x-www-form-urlencoded"
                      text := "stale" } }
    let ps : List Param := [{ name := "a", value := "1" },
                            { name := "a", value := "2" }]
    req.postData.mimeType = "application/x-www-form-urlencoded" ∧
    ((prepare req).postData.paramsObj =
       some (ps.foldl (fun o p => reducer o (p.name, p.value)) []) ∧
     (prepare req).postData.text =
       qsStringify (ps.foldl (fun o p => reducer o (p.name, p.value)) []) ∧
     ∀ k, jsGet? (ps.foldl (fun o p => reducer o (p.name, p.value)) []) k =
       ((ps.filter (fun p => p.name == k)).getLast?).map
         (fun p => p.value)) ∧
    (prepare req).postData.text = "a=2" ∧
    (prepare req0).postData.text = "" := by
  refine ⟨rfl, ?_, by decide, by decide⟩
  exact urlencoded_normalization
    { url := "http://x.test/p"
      postData :=
        { mimeType := "application/x-www-form-urlencoded"
          text := "stale"
          params := some [{ name := "a", value := "1" },
                          { name := "a", value := "2" }] } } rfl

theorem addTarget_ok_iff (reg : Registry) (t : Target) :
    (addTarget reg t).isOk = true ↔
      ∃ i key, t.info = some i ∧ i.key = some key ∧
        i.title.isSome = true ∧ i.extname.isSome = true ∧
        i.default.isSome = true ∧ (jsGet? reg key).isNone = true ∧
        t.clients ≠ [] := by
  unfold addTarget
  rcases hi : t.info with _ | i
  · simp [Except.isOk, Except.toBool]
  · rcases i with ⟨ik, it, ie, idf⟩
    rcases ik with _ | key <;> rcases it with _ | ttl <;>
      rcases ie with _ | ext <;> rcases idf with _ | dfl <;>
      simp [Except.isOk, Except.toBool]
    constructor
    · intro hok
      split_ifs at hok with h1 h2
      exact ⟨Option.not_isSome_iff_eq_none.mp (by simpa using h1),
        by simpa [List.isEmpty_iff] using h2⟩
    · rintro ⟨h1, h2⟩
      rw [if_neg (by simp [h1]), if_neg (by simp [List.isEmpty_iff, h2])]

theorem addTarget_ok_effect (reg : Registry) (t : Target) (reg' : Registry)
    (i : TargetInfo) (key : String) (hi : t.info = some i)
    (hk : i.key = some key) (h : addTarget reg t = .ok reg') :
    reg' = jsSet reg key t := by
  unfold addTarget at h
  rw [hi] at h
  rcases i with ⟨ik, it, ie, idf⟩
  cases hk
  rcases it with _ | ttl <;> rcases ie with _ | ext <;>
    rcases idf with _ | dfl
  all_goals dsimp only at h
  all_goals try cases h
  all_goals split_ifs at h with h1 h2
  all_goals try cases h
  all_goals rfl

theorem addTarget_dup_fails (reg : Registry) (t2 : Target)
    (i2 : TargetInfo) (key : String) (hi2 : t2.info = some i2)
    (hk2 : i2.key = some key) (hdup : (jsGet? reg key).isSome = true) :
    (addTarget reg t2).isOk = false := by
  unfold addTarget
  rw [hi2]
  rcases i2 with ⟨ik, it, ie, idf⟩
  cases hk2
  rcases it with _ | ttl <;> rcases ie with _ | ext <;>
    rcases idf with _ | dfl
  all_goals dsimp only
  all_goals try rfl
  rw [if_pos hdup]
  rfl

/-- C8: `addTarget` fails (a `RegistrationError`, modelled as
`Except.error` carrying the thrown message) precisely when `target.info`
is missing, one of `key`/`title`/`extname`/`default` is missing, the key
already exists in the registry, or the target defines no client entries
beyond `info`; failure happens before any mutation, so the input registry
value is all there is — in particular a prior registration under the same
key stays intact (third conjunct) — and success performs exactly the
insertion under `target.info.key`. -/
theorem addTarget_spec (reg : Registry) (t : Target) :
    ((addTarget reg t).isOk = true ↔
      ∃ i key, t.info = some i ∧ i.key = some key ∧
        i.title.isSome = true ∧ i.extname.isSome = true ∧
        i.default.isSome = true ∧ (jsGet? reg key).isNone = true ∧
        t.clients ≠ []) ∧
    (∀ reg' i key, t.info = some i → i.key = some key →
      addTarget reg t = .ok reg' →
      reg' = jsSet reg key t ∧ jsGet? reg' key = some t) ∧
    (∀ reg' i key t2 i2, t.info = some i → i.key = some key →
      addTarget reg t = .ok reg' → t2.info = some i2 →
      i2.key = some key →
      (addTarget reg' t2).isOk = false ∧ jsGet? reg' key = some t) := by
  refine ⟨addTarget_ok_iff reg t, ?_, ?_⟩
  · intro reg' i key hi hk h
    have he := addTarget_ok_effect reg t reg' i key hi hk h
    exact ⟨he, he ▸ jsGet?_jsSet_self reg key t⟩
  · intro reg' i key t2 i2 hi hk h hi2 hk2
    have he := addTarget_ok_effect reg t reg' i key hi hk h
    have hget : jsGet? reg' key = some t := he ▸ jsGet?_jsSet_self reg key t
    refine ⟨addTarget_dup_fails reg' t2 i2 key hi2 hk2 ?_, hget⟩
    rw [hget]
    rfl

/-- Witness for C8: registering a one-client target succeeds and inserts
it; registering a second target under the same key `"t"` then fails while
the first registration is still found. -/
theorem addTarget_spec_witness :
    let g : Gen := fun _ _ => "code"
    let t : Target :=
      { info := some { key := some "t", title := some "T"
                       extname := some ".t", default := some "c" }
        clients := [("c", g)] }
    let t2 : Target :=
      { info := some { key := some "t", title := some "T2"
                       extname := some ".u", default := some "d" }
        clients := [("d", g)] }
    ((addTarget [] t).isOk = true ↔
      ∃ i key, t.info = some i ∧ i.key = some key ∧
        i.title.isSome = true ∧ i.extname.isSome = true ∧
        i.default.isSome = true ∧ (jsGet? ([] : Registry) key).isNone = true ∧
        t.clients ≠ []) ∧
    (∀ reg' i key, t.info = some i → i.key = some key →
      addTarget [] t = .ok reg' →
      reg' = jsSet [] key t ∧ jsGet? reg' key = some t) ∧
    (∀ reg' i key t2x i2, t.info = some i → i.key = some key →
      addTarget [] t = .ok reg' → t2x.info = some i2 →
      i2.key = some key →
      (addTarget reg' t2x).isOk = false ∧ jsGet? reg' key = some t) ∧
    (addTarget [] t).isOk = true ∧
    ((addTarget [] t).toOption.bind
      (fun reg' => (addTarget reg' t2).toOption)).isNone = true := by
  refine ⟨(addTarget_spec [] _).1, (addTarget_spec [] _).2.1,
    (addTarget_spec [] _).2.2, rfl, rfl⟩

/-- C9 counterexample: `convert` with only two arguments runs
`if (!opts && client) opts = client` *unconditionally*, so the second
argument is passed to the generator as the options value even when it
*is* a recognized client key.  Here `"c"` is a registered client key of
target `"t"`, the generator echoes the string option it receives, and
the two-argument call `convert("t", "c")` both selects client `"c"` and
hands the generator `"c"` as options (result `"c"`, not the `"NOOPTS"`
it returns for absent options) — refuting "treated as the options value
*only if* it is not a recognized client key". -/
theorem convert_two_arg_counterexample :
    let g : Gen := fun _ o => match o with
      | some (JsVal.str s) => s
      | _ => "NOOPTS"
    let t : Target :=
      { info := some { key := some "t", title := some "T"
                       extname := some ".t", default := some "c" }
        clients := [("c", g)] }
    let reg : Registry := [("t", t)]
    let req : Request := { url := "http://x.test/p" }
    (jsGet? t.clients "c").isSome = true ∧
    convert reg [req] "t" (some (JsVal.str "c")) none =
      some (ConvertResult.one "c") :=
  ⟨rfl, rfl⟩

/-- C9 (amended): `convert` with an unknown target key returns the
sentinel `none` (`false` in the source) rather than raising; for a known
target the resolved generator is the one registered under the given
string client key when present, otherwise the target's declared default
client; the resolved generator is applied to every request of the batch
with the effective options — which, whenever the third argument is
absent, are the second argument itself, *even when it is a recognized
client key* (see the counterexample) — and a batch of exactly one
request yields the bare result while any other batch yields the list of
results in input (map) order. -/
theorem convert_dispatch (targets : Registry) (requests : List Request)
    (target : String) (client opts : Option JsVal) :
    (jsGet? targets target = none →
      convert targets requests target client opts = none) ∧
    (∀ t c f, jsGet? targets target = some t →
      client = some (JsVal.str c) → jsGet? t.clients c = some f →
      matchTarget targets target client = some f) ∧
    (∀ f r1, matchTarget targets target client = some f →
      requests = [r1] →
      convert targets requests target client opts =
        some (ConvertResult.one
          (f r1 (if opts.isNone && client.isSome then client else opts)))) ∧
    (∀ f, matchTarget targets target client = some f →
      requests.length ≠ 1 →
      convert targets requests target client opts =
        some (ConvertResult.many (requests.map (fun r =>
          f r (if opts.isNone && client.isSome then client
               else opts))))) := by
  refine ⟨?_, ?_, ?_, ?_⟩
  · intro h
    unfold convert matchTarget
    rw [h]
  · intro t c f ht hc hf
    unfold matchTarget
    rw [ht, hc]
    dsimp only
    rw [hf]
  · intro f r1 hf hr
    subst hr
    unfold convert
    rw [hf]
    rfl
  · intro f hf hlen
    unfold convert
    rw [hf]
    rcases requests with _ | ⟨a, _ | ⟨b, rest⟩⟩
    · rfl
    · exact absurd rfl hlen
    · rfl

/-- Witness for C9's amended theorem: an unknown target gives the
sentinel; a registered client key resolves that client's generator; a
single-request batch returns the bare result (with the two-argument call
passing the client key through as options); a two-request batch returns
both results in order. -/
theorem convert_dispatch_witness :
    let g : Gen := fun _ o => match o with
      | some (JsVal.str s) => "S:" ++ s
      | some (JsVal.objVal _) => "O"
      | none => "N"
    let t : Target :=
      { info := some { key := some "t", title := some "T"
                       extname := some ".t", default := some "c" }
        clients := [("c", g)] }
    let reg : Registry := [("t", t)]
    let req : Request := { url := "http://x.test/p" }
    convert reg [req] "zzz" none none = none ∧
    matchTarget reg "t" (some (JsVal.str "c")) = some g ∧
    convert reg [req] "t" (some (JsVal.str "c")) none =
      some (ConvertResult.one "S:c") ∧
    convert reg [req, req] "t" none (some (JsVal.objVal 5)) =
      some (ConvertResult.many ["O", "O"]) := by
  intro g t reg req
  refine ⟨(convert_dispatch reg [req] "zzz" none none).1 rfl,
    (convert_dispatch reg [req] "t" (some (JsVal.str "c")) none).2.1
      t "c" g rfl rfl rfl, ?_, ?_⟩
  · exact ((convert_dispatch reg [req] "t" (some (JsVal.str "c"))
      none).2.2.1 g req rfl rfl).trans rfl
  · have hlen : ([req, req] : List Request).length ≠ 1 := by decide
    exact ((convert_dispatch reg [req, req] "t" none
      (some (JsVal.objVal 5))).2.2.2 g rfl hlen).trans rfl

theorem jsToLower_eq_empty (s : String) (h : jsToLower s = "") : s = "" := by
  have hd : s.data.map Char.toLower = [] := congrArg String.data h
  have : s.data = [] := List.map_eq_nil_iff.mp hd
  cases s
  simp_all

/-- C10: when at least two distinct keys of the headers object equal the
looked-up name ignoring case, `getHeader` returns the value stored under
the *first* matching key in key-enumeration order (`List.find?` over
`Object.keys`), and `getHeaderName` returns that same first matching
key.  (With two distinct case-insensitive matches every matching key is
non-empty, so `getHeaderName`'s truthiness quirk on empty keys cannot
strike.) -/
theorem getHeader_first_enumerated_match
    (headers : List (String × String)) (name k1 k2 : String)
    (h1 : k1 ∈ jsKeys headers) (h2 : k2 ∈ jsKeys headers) (hne : k1 ≠ k2)
    (hm1 : jsToLower k1 = jsToLower name)
    (hm2 : jsToLower k2 = jsToLower name) :
    ∃ k, (jsKeys headers).find?
        (fun x => jsToLower x == jsToLower name) = some k ∧
      getHeaderName headers name = some k ∧
      getHeader headers name = jsGet? headers k := by
  have hempty : jsToLower name ≠ "" := by
    intro habs
    have e1 : k1 = "" := jsToLower_eq_empty k1 (hm1.trans habs)
    have e2 : k2 = "" := jsToLower_eq_empty k2 (hm2.trans habs)
    exact hne (e1.trans e2.symm)
  have hpred : (fun x => (jsToLower x == jsToLower name) && !(x == "")) =
      (fun x => jsToLower x == jsToLower name) := by
    funext x
    rcases hx : (jsToLower x == jsToLower name) with _ | _
    · simp
    · have hxne : ¬ x = "" := by
        intro habs
        rw [habs] at hx
        have hxx : jsToLower "" = jsToLower name := by simpa using hx
        have hz : jsToLower "" = "" := rfl
        exact hempty ((hz.symm.trans hxx).symm)
      simp [hxne]
  rcases hf : (jsKeys headers).find?
      (fun x => jsToLower x == jsToLower name) with _ | k
  · exfalso
    have := List.find?_eq_none.mp hf k1 h1
    simp [hm1] at this
  · refine ⟨k, rfl, ?_, ?_⟩
    · unfold getHeaderName
      rw [hpred, hf]
    · unfold getHeader
      rw [hf]

/-- Witness for C10: headers `X-A: 1`, `x-a: 2` with lookup name `x-a` —
both keys match ignoring case, and the helpers return the first
enumerated key `X-A` and its value `"1"`. -/
theorem getHeader_first_enumerated_match_witness :
    let headers : List (String × String) := [("X-A", "1"), ("x-a", "2")]
    ("X-A" ∈ jsKeys headers ∧ "x-a" ∈ jsKeys headers ∧
      ("X-A" : String) ≠ "x-a" ∧
      jsToLower "X-A" = jsToLower "x-a" ∧
      jsToLower "x-a" = jsToLower "x-a") ∧
    (∃ k, (jsKeys headers).find?
        (fun x => jsToLower x == jsToLower "x-a") = some k ∧
      getHeaderName headers "x-a" = some k ∧
      getHeader headers "x-a" = jsGet? headers k) ∧
    getHeader headers "x-a" = some "1" ∧
    getHeaderName headers "x-a" = some "X-A" := by
  refine ⟨⟨by decide, by decide, by decide, by decide, by decide⟩, ?_,
    by decide, by decide⟩
  exact getHeader_first_enumerated_match _ "x-a" "X-A" "x-a" (by decide)
    (by decide) (by decide) (by decide) (by decide)

end HttpSnippet

